import Mathlib

/-!
A shallow embedding of the sc16is752 driver (src/src/lib.rs): a register-access
driver for a dual-UART + 8-bit GPIO expander reachable over an I2C bus.

Modelling conventions:
* machine integers are `Nat`, reduced `% 256` where the Rust type is `u8`
  and `% 2 ^ 32` where it is `u32`;
* the I2C bus (an external collaborator) is a value of a `BusIface` record:
  a write transaction and a write-then-read transaction over an abstract bus
  state, each able to fail with a transport error;
* driver methods become state-passing functions `DeviceState β → RunResult β α`;
  a Rust `Err(e)` return carries the mutated receiver along (the caller keeps
  using `self`), and a Rust abort (division by zero, failing
  `try_into().unwrap()`) is the explicit outcome `RunResult.panic`.
-/

set_option maxRecDepth 100000

namespace SC16IS752

/-- Transport-error code, kept abstract: the driver only moves it around. -/
abbrev TErr := Nat

/-- UARTs Channel A and Channel B (`enum Channel` in the source). -/
inductive Channel where
  | A
  | B
deriving DecidableEq, Fintype

/-- `channel as u8` in the source. -/
def Channel.idx : Channel → Nat
  | .A => 0
  | .B => 1

/-- `enum Parity` from the source. -/
inductive Parity where
  | NoParity
  | Odd
  | Even
  | ForcedParity1
  | ForcedParity0
deriving DecidableEq, Fintype

/-- `enum FeaturesRegister` from the source (discriminants are bit masks). -/
inductive FeaturesRegister where
  | IrDaFast
  | AutoRs485RTSOutputInversion
  | AutoRs485DirectionControl
  | TxDisable
  | RxDisable
  | Multidrop
deriving DecidableEq, Fintype

/-- `feature as u8`: the enum discriminants from the source. -/
def FeaturesRegister.value : FeaturesRegister → Nat
  | .IrDaFast => 0x80
  | .AutoRs485RTSOutputInversion => 0x20
  | .AutoRs485DirectionControl => 0x10
  | .TxDisable => 0x04
  | .RxDisable => 0x02
  | .Multidrop => 0x01

/-- `enum GPIO` (pins 0-7) from the source. -/
inductive GPIO where
  | GPIO0
  | GPIO1
  | GPIO2
  | GPIO3
  | GPIO4
  | GPIO5
  | GPIO6
  | GPIO7
deriving DecidableEq, Fintype

/-- `pin_number as u8` in the source. -/
def GPIO.idx : GPIO → Nat
  | .GPIO0 => 0
  | .GPIO1 => 1
  | .GPIO2 => 2
  | .GPIO3 => 3
  | .GPIO4 => 4
  | .GPIO5 => 5
  | .GPIO6 => 6
  | .GPIO7 => 7

/-- `enum PinMode` from the source. -/
inductive PinMode where
  | Input
  | Output
deriving DecidableEq, Fintype

/-- `enum PinState` from the source. -/
inductive PinState where
  | Low
  | High
deriving DecidableEq, Fintype

/-- `const CRYSTAL_FREQ: u32 = 1843200`. -/
def CRYSTAL_FREQ : Nat := 1843200

/-- One bus transaction as seen on the wire: a write-then-read (`isRead`)
or a plain write, with the chip address targeted and the bytes written. -/
structure Txn where
  isRead : Bool
  target : Nat
  data : List Nat
deriving DecidableEq

/-- The bus transport contract (external collaborator, `embedded_hal::i2c`):
a write-then-read transaction returning one byte, and a write transaction;
either can fail with a transport error. `β` is the bus's own state. -/
structure BusIface (β : Type) where
  writeRead : β → Nat → List Nat → Except TErr (Nat × β)
  write : β → Nat → List Nat → Except TErr β

/-- `struct SC16IS752`: resolved chip address, bus state, and the per-channel
cached FIFO count / peek flag / peek buffer (`fifo`, `peek_flags`, `peek_buf`
arrays indexed by `channel as usize`). -/
structure DeviceState (β : Type) where
  address : Nat
  bus : β
  fifoA : Nat
  fifoB : Nat
  peekFlagA : Bool
  peekFlagB : Bool
  peekBufA : Option Nat
  peekBufB : Option Nat
deriving DecidableEq

variable {β : Type}

def DeviceState.fifoAt : DeviceState β → Channel → Nat
  | s, .A => s.fifoA
  | s, .B => s.fifoB

def DeviceState.setFifoAt : DeviceState β → Channel → Nat → DeviceState β
  | s, .A, v => { s with fifoA := v }
  | s, .B, v => { s with fifoB := v }

def DeviceState.peekFlagAt : DeviceState β → Channel → Bool
  | s, .A => s.peekFlagA
  | s, .B => s.peekFlagB

def DeviceState.setPeekFlagAt : DeviceState β → Channel → Bool → DeviceState β
  | s, .A, v => { s with peekFlagA := v }
  | s, .B, v => { s with peekFlagB := v }

def DeviceState.peekBufAt : DeviceState β → Channel → Option Nat
  | s, .A => s.peekBufA
  | s, .B => s.peekBufB

def DeviceState.setPeekBufAt : DeviceState β → Channel → Option Nat → DeviceState β
  | s, .A, v => { s with peekBufA := v }
  | s, .B, v => { s with peekBufB := v }

/-- Outcome of running a driver method: normal return with the new device
state, propagated transport error (the receiver survives in Rust, so the
state is carried along), or a Rust panic. -/
inductive RunResult (β : Type) (α : Type) where
  | ok : α → DeviceState β → RunResult β α
  | err : TErr → DeviceState β → RunResult β α
  | panic : RunResult β α
deriving DecidableEq

/-- State-passing driver computation (a `&mut self` method returning
`Result<α, E>`, possibly panicking). -/
def M (β : Type) (α : Type) := DeviceState β → RunResult β α

instance : Monad (M β) where
  pure a := fun s => .ok a s
  bind m f := fun s =>
    match m s with
    | .ok a s' => f a s'
    | .err e s' => .err e s'
    | .panic => .panic

/-- Rust panic as a computation. -/
def panicM {α : Type} : M β α := fun _ => .panic

def valOf {α : Type} : RunResult β α → Option α
  | .ok a _ => some a
  | _ => none

def stateOf {α : Type} : RunResult β α → Option (DeviceState β)
  | .ok _ s => some s
  | .err _ s => some s
  | .panic => none

def errOf {α : Type} : RunResult β α → Option TErr
  | .err e _ => some e
  | _ => none

def panicked {α : Type} : RunResult β α → Bool
  | .panic => true
  | _ => false

/-- `SC16IS752::new`: if the raw address is not already in `0x48..=0x57`,
right-shift it by one; no I/O happens at construction. -/
def new (device_address : Nat) (bus : β) : DeviceState β :=
  { address :=
      if 0x48 ≤ device_address ∧ device_address ≤ 0x57 then device_address
      else device_address >>> 1
    bus := bus
    fifoA := 0, fifoB := 0
    peekFlagA := false, peekFlagB := false
    peekBufA := none, peekBufB := none }

/-- The on-wire sub-address `reg_address << 3 | (channel as u8) << 1`
(both operands are `u8`). -/
def subAddress (reg : Nat) (ch : Channel) : Nat :=
  ((reg <<< 3) % 256) ||| ((ch.idx <<< 1) % 256)

/-- `read_register`: one write-then-read transaction; the byte read, or the
transport error, verbatim. -/
def read_register (B : BusIface β) (ch : Channel) (reg : Nat) : M β Nat := fun s =>
  match B.writeRead s.bus s.address [subAddress reg ch] with
  | .ok (v, b') => .ok (v % 256) { s with bus := b' }
  | .error e => .err e s

/-- `write_register`: one write transaction carrying the sub-address and the
payload byte. -/
def write_register (B : BusIface β) (ch : Channel) (reg payload : Nat) : M β Unit := fun s =>
  match B.write s.bus s.address [subAddress reg ch, payload % 256] with
  | .ok b' => .ok () { s with bus := b' }
  | .error e => .err e s

/-- `fifo_enable`: read FCR (offset 0x02), clear bit 0 if disabling or set it
if enabling, write back. -/
def fifo_enable (B : BusIface β) (ch : Channel) (state : Bool) : M β Unit := do
  let v ← read_register B ch 0x02
  let v := if !state then v &&& 0xFE else v ||| 0x01
  write_register B ch 0x02 v

/-- `fifo_reset`: read FCR, OR in bit 2 (`0x04`) when `state` is false or
bit 1 (`0x02`) when it is true, write back. -/
def fifo_reset (B : BusIface β) (ch : Channel) (state : Bool) : M β Unit := do
  let v ← read_register B ch 0x02
  let v := if !state then v ||| 0x04 else v ||| 0x02
  write_register B ch 0x02 v

/-- `set_baudrate`: read the prescaler-select register (0x04, value 0 means
prescaler 1, anything else 4), compute
`divisor = (CRYSTAL_FREQ / prescaler) / (baudrate * 16)` (the `u32` product
wraps; a zero denominator is a division-by-zero panic), set LCR bit 7, write
the divisor to offsets 0x00/0x01 via `try_into().unwrap()` (a value over 255
panics), then clear LCR bit 7. -/
def set_baudrate (B : BusIface β) (ch : Channel) (baudrate : Nat) : M β Unit := do
  let p ← read_register B ch 0x04
  let prescaler : Nat := if p = 0 then 1 else 4
  let denom := (baudrate * 16) % 2 ^ 32
  if denom = 0 then panicM else do
    let divisor := (CRYSTAL_FREQ / prescaler) / denom
    let v ← read_register B ch 0x03
    let v := v ||| 0x80
    write_register B ch 0x03 v
    if 256 ≤ divisor then panicM else do
      write_register B ch 0x00 divisor
      if 256 ≤ divisor >>> 8 then panicM else do
        write_register B ch 0x01 (divisor >>> 8)
        write_register B ch 0x03 (v &&& 0x7F)

/-- The `match data_length` arms of `set_line`: 5 adds nothing, 6 adds 0x01,
7 adds 0x02, anything else adds 0x03. -/
def wordLengthBits (wl : Nat) : Nat :=
  if wl = 5 then 0x00 else if wl = 6 then 0x01 else if wl = 7 then 0x02 else 0x03

/-- The `match parity_select` arms of `set_line`. -/
def parityBits : Parity → Nat
  | .NoParity => 0x00
  | .Odd => 0x08
  | .Even => 0x18
  | .ForcedParity1 => 0x28
  | .ForcedParity0 => 0x38

/-- `set_line`: read LCR (0x03), keep its two high bits (`&= 0xC0`), OR in the
word-length code, bit 2 when `stop_length == 2`, and the parity pattern;
write the composed byte back. -/
def set_line (B : BusIface β) (ch : Channel) (data_length : Nat) (parity_select : Parity)
    (stop_length : Nat) : M β Unit := do
  let v ← read_register B ch 0x03
  let v := v &&& 0xC0
  let v := v ||| wordLengthBits data_length
  let v := if stop_length = 2 then v ||| 0x04 else v
  let v := v ||| parityBits parity_select
  write_register B ch 0x03 v

/-- `struct UartConfig`. -/
structure UartConfig where
  baud : Nat
  word_length : Nat
  parity : Parity
  stop_bit : Nat

/-- `initalise_uart` (source spelling): FIFO enable, then baud rate, then
line control; the first failure propagates. -/
def initalise_uart (B : BusIface β) (ch : Channel) (config : UartConfig) : M β Unit := do
  fifo_enable B ch true
  set_baudrate B ch config.baud
  set_line B ch config.word_length config.parity config.stop_bit

/-- `gpio_set_pin_mode`: read IODir (0x0A, always via Channel A), set the
pin's bit for Output / clear it for Input (`!` is the `u8` complement),
write back. -/
def gpio_set_pin_mode (B : BusIface β) (pin_number : GPIO) (pin_direction : PinMode) :
    M β Unit := do
  let v ← read_register B .A 0x0A
  let v :=
    match pin_direction with
    | .Output => v ||| (0x01 <<< pin_number.idx)
    | .Input => v &&& (0xFF ^^^ (0x01 <<< pin_number.idx))
  write_register B .A 0x0A v

/-- `gpio_set_pin_state`: read IOState (0x0B, always via Channel A), set the
pin's bit for High / clear it for Low, write back. -/
def gpio_set_pin_state (B : BusIface β) (pin_number : GPIO) (pin_state : PinState) :
    M β Unit := do
  let v ← read_register B .A 0x0B
  let v :=
    match pin_state with
    | .High => v ||| (0x01 <<< pin_number.idx)
    | .Low => v &&& (0xFF ^^^ (0x01 <<< pin_number.idx))
  write_register B .A 0x0B v

/-- `fifo_available_data`: read RXLVL (0x09), store it in the per-channel
cache, return it. -/
def fifo_available_data (B : BusIface β) (ch : Channel) : M β Nat := fun s =>
  match read_register B ch 0x09 s with
  | .ok v s' => .ok v (s'.setFifoAt ch v)
  | .err e s' => .err e s'
  | .panic => .panic

/-- `fifo_available_space`: read TXLVL (0x08). -/
def fifo_available_space (B : BusIface β) (ch : Channel) : M β Nat :=
  read_register B ch 0x08

/-- `read_byte`: if the available count is 0 return `none` (not an error),
otherwise read one byte from the data register (0x00). -/
def read_byte (B : BusIface β) (ch : Channel) : M β (Option Nat) := do
  let n ← fifo_available_data B ch
  if n = 0 then pure none
  else do
    let v ← read_register B ch 0x00
    pure (some v)

/-- The `for _ in 0..=buf_len` loop of `read` / `read_all`, with `k` the
number of iterations left: `if let Ok(Some(byte)) = self.read_byte(channel)`
pushes a received byte and silently skips both the `None` case and the
`Err` case. -/
def readIter (B : BusIface β) (ch : Channel) : Nat → List Nat → M β (List Nat)
  | 0, buf => pure buf
  | k + 1, buf => fun s =>
    match read_byte B ch s with
    | .ok (some b) s' => readIter B ch k (buf ++ [b]) s'
    | .ok none s' => readIter B ch k buf s'
    | .err _ s' => readIter B ch k buf s'
    | .panic => .panic

/-- `read`: `buf_len` starts at 0 and is set to the available count only when
`quantity` exceeds it; the loop `for _ in 0..=buf_len` then runs
`buf_len + 1` times. -/
def read (B : BusIface β) (ch : Channel) (quantity : Nat) : M β (List Nat) := do
  let a ← fifo_available_data B ch
  let bufLen ← if a < quantity then fifo_available_data B ch else pure 0
  readIter B ch (bufLen + 1) []

/-- `read_all`: loop `for _ in 0..=fifo_available_data(channel)?`. -/
def read_all (B : BusIface β) (ch : Channel) : M β (List Nat) := do
  let a ← fifo_available_data B ch
  readIter B ch (a + 1) []

/-- `enable_features`: read EFCR (0x0F); `enable = false` ORs the feature's
bit in, `enable = true` ANDs it out; write back. -/
def enable_features (B : BusIface β) (ch : Channel) (feature : FeaturesRegister)
    (enable : Bool) : M β Unit := do
  let v ← read_register B ch 0x0F
  let v := if !enable then v ||| feature.value else v &&& (0xFF ^^^ feature.value)
  write_register B ch 0x0F v

/-- `peek`: only when the channel's peek flag is already set, read a byte into
the peek buffer (propagating a transport error), and re-set the flag if a
byte arrived; when the flag is clear nothing at all happens. -/
def peek (B : BusIface β) (ch : Channel) : M β Unit := fun s =>
  if s.peekFlagAt ch then
    match read_byte B ch s with
    | .ok ob s' =>
      let s' := s'.setPeekBufAt ch ob
      if ob.isSome then .ok () (s'.setPeekFlagAt ch true) else .ok () s'
    | .err e s' => .err e s'
    | .panic => .panic
  else .ok () s

/-- Bus state for the transaction-log oracle: how many transactions have been
served, and the wire log of those that succeeded. -/
structure OracleState where
  txn : Nat
  log : List Txn
deriving DecidableEq

/-- An oracle bus: transaction number `t` succeeds or fails according to
`resp t`; a successful write-then-read returns the oracle's byte, and every
successful transaction is appended to the log. -/
def oracleBus (resp : Nat → Except TErr Nat) : BusIface OracleState where
  writeRead s target data :=
    match resp s.txn with
    | .ok v => .ok (v, ⟨s.txn + 1, s.log ++ [⟨true, target, data⟩]⟩)
    | .error e => .error e
  write s target data :=
    match resp s.txn with
    | .ok _ => .ok ⟨s.txn + 1, s.log ++ [⟨false, target, data⟩]⟩
    | .error e => .error e

/-- A freshly constructed device over the oracle bus. -/
def dev0 (addr : Nat) : DeviceState OracleState := new addr ⟨0, []⟩

/-- The wire log left by a run over the oracle bus (when it did not panic). -/
def logOf {α : Type} (r : RunResult OracleState α) : Option (List Txn) :=
  (stateOf r).map fun s => s.bus.log

/-- Hardware model of the chip's receive FIFO, the external device of the
spec (§3/§4.3): one byte queue per channel; reading RXLVL (offset 0x09)
reports the queue length, reading the data register (offset 0x00) pops one
byte, every other register reads 0, and every write succeeds. -/
structure FifoState where
  qa : List Nat
  qb : List Nat
deriving DecidableEq

def FifoState.queueAt : FifoState → Channel → List Nat
  | s, .A => s.qa
  | s, .B => s.qb

def FifoState.setQueueAt : FifoState → Channel → List Nat → FifoState
  | s, .A, q => { s with qa := q }
  | s, .B, q => { s with qb := q }

/-- Channel targeted by an on-wire sub-address (bit 1 is the channel select). -/
def chOfSub (sub : Nat) : Channel := if (sub >>> 1) &&& 1 = 0 then .A else .B

/-- The FIFO hardware bus (see `FifoState`). -/
def fifoBus : BusIface FifoState where
  writeRead s _target data :=
    let sub := data.headD 0
    let reg := sub >>> 3
    let ch := chOfSub sub
    if reg = 0x09 then .ok ((s.queueAt ch).length, s)
    else if reg = 0x00 then
      match s.queueAt ch with
      | [] => .ok (0, s)
      | b :: rest => .ok (b, s.setQueueAt ch rest)
    else .ok (0, s)
  write s _ _ := .ok s

/-- A fresh device over the FIFO hardware bus, with the given per-channel
receive queues. -/
def fdev (qa qb : List Nat) : DeviceState FifoState := new 0x48 ⟨qa, qb⟩

/-- The divisor `set_baudrate` computes from the prescaler-select byte `p`
and the requested baud rate: `(CRYSTAL_FREQ / prescaler) / (baudrate * 16)`
with the `u32` product wrapping. -/
def divisorOf (p baudrate : Nat) : Nat :=
  (CRYSTAL_FREQ / (if p = 0 then 1 else 4)) / ((baudrate * 16) % 2 ^ 32)

/-- The byte `set_line` composes and writes to the line-control register,
mirroring its sequential updates: keep the two high bits, OR in the
word-length code, OR in bit 2 when the stop length is 2, OR in the parity
pattern. -/
def lineControlByte (v wl : Nat) (p : Parity) (stop : Nat) : Nat :=
  (if stop = 2 then ((v &&& 0xC0) ||| wordLengthBits wl) ||| 0x04
   else (v &&& 0xC0) ||| wordLengthBits wl) ||| parityBits p

/-- The byte `enable_features` writes back to the extra-features control
register, given the byte `v` it read. -/
def featurePayload (v : Nat) (feature : FeaturesRegister) (enable : Bool) : Nat :=
  if !enable then v ||| feature.value else v &&& (0xFF ^^^ feature.value)

/-- Bit position of each feature's mask bit. -/
def featureBitIdx : FeaturesRegister → Nat
  | .IrDaFast => 7
  | .AutoRs485RTSOutputInversion => 5
  | .AutoRs485DirectionControl => 4
  | .TxDisable => 2
  | .RxDisable => 1
  | .Multidrop => 0

/-- The byte `fifo_reset` writes back to the FIFO-control register, given the
byte `v` it read. -/
def fifoResetPayload (v : Nat) (state : Bool) : Nat :=
  if !state then v ||| 0x04 else v ||| 0x02

/-- The byte `gpio_set_pin_mode` writes back to IODir, given the byte `v` it
read. -/
def pinModePayload (v : Nat) (g : GPIO) : PinMode → Nat
  | .Output => v ||| (0x01 <<< g.idx)
  | .Input => v &&& (0xFF ^^^ (0x01 <<< g.idx))

/-- The byte `gpio_set_pin_state` writes back to IOState, given the byte `v`
it read. -/
def pinStatePayload (v : Nat) (g : GPIO) : PinState → Nat
  | .High => v ||| (0x01 <<< g.idx)
  | .Low => v &&& (0xFF ^^^ (0x01 <<< g.idx))

/-- A caller issuing a sequence of `peek` calls, one channel at a time,
stopping at the first failure. -/
def peekRun (B : BusIface β) : List Channel → DeviceState β → RunResult β Unit
  | [], s => .ok () s
  | ch :: rest, s =>
    match peek B ch s with
    | .ok _ s' => peekRun B rest s'
    | .err e s' => .err e s'
    | .panic => .panic

theorem run_bind {α γ : Type} (m : M β α) (f : α → M β γ) (s : DeviceState β) :
    (m >>= f) s =
      match m s with
      | .ok a s' => f a s'
      | .err e s' => .err e s'
      | .panic => .panic := rfl

theorem run_pure {α : Type} (a : α) (s : DeviceState β) : (pure a : M β α) s = .ok a s := rfl

theorem read_register_const (v : Nat) (ch : Channel) (reg : Nat) (s : DeviceState OracleState) :
    read_register (oracleBus fun _ => .ok v) ch reg s =
      .ok (v % 256)
        { s with bus := ⟨s.bus.txn + 1, s.bus.log ++ [⟨true, s.address, [subAddress reg ch]⟩]⟩ } :=
  rfl

theorem write_register_const (v payload : Nat) (ch : Channel) (reg : Nat)
    (s : DeviceState OracleState) :
    write_register (oracleBus fun _ => .ok v) ch reg payload s =
      .ok ()
        { s with
          bus := ⟨s.bus.txn + 1,
                  s.bus.log ++ [⟨false, s.address, [subAddress reg ch, payload % 256]⟩]⟩ } :=
  rfl

/-- C1, counterexample: over the FIFO hardware bus with 5 bytes available,
`read` with `quantity = 0` still returns one byte — more than `quantity` —
and `read` with `quantity = 3 ≤ 5` returns a single byte, not 3, because
`buf_len` stays 0 and the inclusive loop still runs once. -/
theorem C1_counterexample :
    (valOf (read fifoBus .A 0 (fdev [1, 2, 3, 4, 5] []))).map List.length = some 1 ∧
    ¬ (1 ≤ (0 : Nat)) ∧
    (valOf (read fifoBus .A 3 (fdev [1, 2, 3, 4, 5] []))).map List.length = some 1 ∧
    (1 : Nat) ≠ 3 := by decide

/-- C2, counterexample: with a bus whose first two transactions succeed
(reporting 5 available bytes) and every later transaction fails, `read`
returns `Ok` with an empty buffer: the transport errors raised inside the
loop are discarded by `if let Ok(Some(byte))`, not propagated. -/
theorem C2_counterexample :
    errOf (read (oracleBus fun t => if t < 2 then .ok 5 else .error 7) .A 10 (dev0 0x48)) =
      none ∧
    valOf (read (oracleBus fun t => if t < 2 then .ok 5 else .error 7) .A 10 (dev0 0x48)) =
      some [] := by decide

/-- C3: a baud rate of 0 is not rejected — `set_baudrate` reaches the
divisor computation and divides by zero (a Rust panic), both directly and
via `initalise_uart`. -/
theorem C3_zero_baud_division_panic :
    panicked (set_baudrate (oracleBus fun _ => .ok 0) .A 0 (dev0 0x48)) = true ∧
    panicked (initalise_uart (oracleBus fun _ => .ok 0) .A ⟨0, 8, .NoParity, 1⟩ (dev0 0x48)) =
      true ∧
    (0 * 16) % 2 ^ 32 = 0 := by decide

/-- C4, counterexample: at baud 300 the computed divisor is 384 > 255, and
`set_baudrate` panics in `try_into().unwrap()` instead of writing the
divisor's low byte mod 256. -/
theorem C4_counterexample :
    panicked (set_baudrate (oracleBus fun _ => .ok 0) .A 300 (dev0 0x48)) = true ∧
    divisorOf 0 300 = 384 := by decide

/-- C5, counterexample: `new` with raw address 0x00 stores resolved address
0x00, outside [0x48, 0x57], so the claimed invariant fails. -/
theorem C5_counterexample :
    (new 0x00 (⟨0, []⟩ : OracleState)).address = 0x00 ∧
    ¬ (0x48 ≤ (new 0x00 (⟨0, []⟩ : OracleState)).address ∧
       (new 0x00 (⟨0, []⟩ : OracleState)).address ≤ 0x57) := by decide

/-- C5, amended: the resolved address is the raw address when it already lies
in [0x48, 0x57] and `raw >>> 1` otherwise; the resolved address lies in
[0x48, 0x57] exactly when the raw address lies in [0x48, 0x57] or in
[0x90, 0xAF] — not for every raw address. -/
theorem C5_new_address (raw : Nat) (h : raw < 256) (b : β) :
    ((0x48 ≤ raw ∧ raw ≤ 0x57) → (new raw b).address = raw) ∧
    (¬ (0x48 ≤ raw ∧ raw ≤ 0x57) → (new raw b).address = raw >>> 1) ∧
    ((0x48 ≤ (new raw b).address ∧ (new raw b).address ≤ 0x57) ↔
      ((0x48 ≤ raw ∧ raw ≤ 0x57) ∨ (0x90 ≤ raw ∧ raw ≤ 0xAF))) := by
  have key : ∀ r, r < 256 →
      (((0x48 ≤ r ∧ r ≤ 0x57) → (if 0x48 ≤ r ∧ r ≤ 0x57 then r else r >>> 1) = r) ∧
       (¬ (0x48 ≤ r ∧ r ≤ 0x57) →
         (if 0x48 ≤ r ∧ r ≤ 0x57 then r else r >>> 1) = r >>> 1) ∧
       ((0x48 ≤ (if 0x48 ≤ r ∧ r ≤ 0x57 then r else r >>> 1) ∧
         (if 0x48 ≤ r ∧ r ≤ 0x57 then r else r >>> 1) ≤ 0x57) ↔
         ((0x48 ≤ r ∧ r ≤ 0x57) ∨ (0x90 ≤ r ∧ r ≤ 0xAF)))) := by decide
  exact key raw h

theorem C5_witness :
    (new 0x90 (⟨0, []⟩ : OracleState)).address = 0x90 >>> 1 ∧
    (0x48 ≤ (new 0x90 (⟨0, []⟩ : OracleState)).address ∧
     (new 0x90 (⟨0, []⟩ : OracleState)).address ≤ 0x57) :=
  ⟨(C5_new_address 0x90 (by decide) (⟨0, []⟩ : OracleState)).2.1 (by decide),
   (C5_new_address 0x90 (by decide) (⟨0, []⟩ : OracleState)).2.2.mpr (Or.inr (by decide))⟩

/-- C7: `enable_features` reads the extra-features control register and
writes it back with exactly the feature's bit changed: `enable = false` sets
the bit, `enable = true` clears it, and every other bit is preserved; in
particular TxDisable (= 0x04) is set by `enable = false` and cleared by
`enable = true`. -/
theorem C7_enable_features_inverted (v : Nat) (hv : v < 256) (ch : Channel)
    (f : FeaturesRegister) (en : Bool) :
    logOf (enable_features (oracleBus fun _ => .ok v) ch f en (dev0 0x48)) =
      some [⟨true, 0x48, [subAddress 0x0F ch]⟩,
            ⟨false, 0x48, [subAddress 0x0F ch, featurePayload v f en % 256]⟩] ∧
    featurePayload v f en % 256 = featurePayload v f en ∧
    (featurePayload v f en).testBit (featureBitIdx f) = !en ∧
    (∀ i, i < 8 → i ≠ featureBitIdx f →
      (featurePayload v f en).testBit i = v.testBit i) ∧
    featurePayload v .TxDisable false = v ||| 0x04 ∧
    featurePayload v .TxDisable true = v &&& 0xFB := by
  have hv' : v % 256 = v := Nat.mod_eq_of_lt hv
  refine ⟨?_, ?_, ?_, ?_, ?_, ?_⟩
  · have base :
        logOf (enable_features (oracleBus fun _ => .ok v) ch f en (dev0 0x48)) =
          some [⟨true, 0x48, [subAddress 0x0F ch]⟩,
                ⟨false, 0x48, [subAddress 0x0F ch, featurePayload (v % 256) f en % 256]⟩] := by
      cases ch <;> cases f <;> cases en <;> rfl
    rw [hv'] at base
    exact base
  · clear hv'; revert v hv ch f en; decide
  · clear hv'; revert v hv ch f en; decide
  · clear hv'; revert v hv ch f en; decide
  · clear hv'; revert v hv ch f en; decide
  · clear hv'; revert v hv ch f en; decide

theorem C7_witness :
    (featurePayload 6 .TxDisable false).testBit (featureBitIdx .TxDisable) = !false ∧
    featurePayload 6 .TxDisable false = 6 ||| 0x04 :=
  ⟨(C7_enable_features_inverted 6 (by decide) .A .TxDisable false).2.2.1,
   (C7_enable_features_inverted 6 (by decide) .A .TxDisable false).2.2.2.2.1⟩

/-- C8, counterexample: when the byte read back from the FIFO-control
register already has bit 1 set (here 0x06), `fifo_reset` with `state = false`
writes back 0x06, in which both bit 1 (0x02) and bit 2 (0x04) are asserted —
refuting "exactly one, never both". -/
theorem C8_counterexample :
    logOf (fifo_reset (oracleBus fun _ => .ok 0x06) .A false (dev0 0x48)) =
      some [⟨true, 0x48, [subAddress 0x02 .A]⟩,
            ⟨false, 0x48, [subAddress 0x02 .A, 0x06]⟩] ∧
    Nat.testBit 0x06 1 = true ∧ Nat.testBit 0x06 2 = true := by decide

/-- C8, amended: `fifo_reset` ORs exactly one of bit 1 (`state = true`) or
bit 2 (`state = false`) onto the byte it read, so the selected bit is always
asserted in the written byte; the other reset bit is asserted only if it was
already set in the byte read, and when the read byte has neither reset bit
the written byte has exactly one of them. -/
theorem C8_fifo_reset_bits (v : Nat) (hv : v < 256) (ch : Channel) (st : Bool) :
    logOf (fifo_reset (oracleBus fun _ => .ok v) ch st (dev0 0x48)) =
      some [⟨true, 0x48, [subAddress 0x02 ch]⟩,
            ⟨false, 0x48, [subAddress 0x02 ch, fifoResetPayload v st % 256]⟩] ∧
    fifoResetPayload v st % 256 = fifoResetPayload v st ∧
    (fifoResetPayload v st).testBit (if st then 1 else 2) = true ∧
    ((fifoResetPayload v st).testBit (if st then 2 else 1) = v.testBit (if st then 2 else 1)) ∧
    (v &&& 0x06 = 0 →
      ((fifoResetPayload v st).testBit 1 = st ∧ (fifoResetPayload v st).testBit 2 = !st)) := by
  revert v hv ch st
  decide

theorem C8_witness :
    (fifoResetPayload 0 false).testBit 1 = false ∧
    (fifoResetPayload 0 false).testBit 2 = !false :=
  (C8_fifo_reset_bits 0 (by decide) .A false).2.2.2.2 (by decide)

/-- C10: `gpio_set_pin_mode` and `gpio_set_pin_state` read IODir / IOState
and write back a byte that agrees with the byte read on every bit position
other than the addressed pin's bit. -/
theorem C10_gpio_rmw_frame (v : Nat) (hv : v < 256) (g : GPIO) (m : PinMode)
    (ps : PinState) :
    logOf (gpio_set_pin_mode (oracleBus fun _ => .ok v) g m (dev0 0x48)) =
      some [⟨true, 0x48, [subAddress 0x0A .A]⟩,
            ⟨false, 0x48, [subAddress 0x0A .A, pinModePayload v g m % 256]⟩] ∧
    logOf (gpio_set_pin_state (oracleBus fun _ => .ok v) g ps (dev0 0x48)) =
      some [⟨true, 0x48, [subAddress 0x0B .A]⟩,
            ⟨false, 0x48, [subAddress 0x0B .A, pinStatePayload v g ps % 256]⟩] ∧
    pinModePayload v g m % 256 = pinModePayload v g m ∧
    pinStatePayload v g ps % 256 = pinStatePayload v g ps ∧
    ∀ i, i < 8 → i ≠ g.idx →
      ((pinModePayload v g m).testBit i = v.testBit i ∧
       (pinStatePayload v g ps).testBit i = v.testBit i) := by
  have hv' : v % 256 = v := Nat.mod_eq_of_lt hv
  have hbit : (0x01 <<< g.idx) = 2 ^ g.idx := Nat.one_shiftLeft g.idx
  have hmask : (0xFF : Nat) = 2 ^ 8 - 1 := by norm_num
  have hmode : ∀ i, i < 8 → i ≠ g.idx → (pinModePayload v g m).testBit i = v.testBit i := by
    intro i hi hne
    cases m with
    | Output =>
      simp only [pinModePayload]
      rw [hbit, Nat.testBit_or, Nat.testBit_two_pow_of_ne (Ne.symm hne), Bool.or_false]
    | Input =>
      simp only [pinModePayload]
      rw [hbit, hmask, Nat.testBit_and, Nat.testBit_xor, Nat.testBit_two_pow_sub_one,
        Nat.testBit_two_pow_of_ne (Ne.symm hne), decide_eq_true hi, Bool.xor_false,
        Bool.and_true]
  have hstate : ∀ i, i < 8 → i ≠ g.idx → (pinStatePayload v g ps).testBit i = v.testBit i := by
    intro i hi hne
    cases ps with
    | High =>
      simp only [pinStatePayload]
      rw [hbit, Nat.testBit_or, Nat.testBit_two_pow_of_ne (Ne.symm hne), Bool.or_false]
    | Low =>
      simp only [pinStatePayload]
      rw [hbit, hmask, Nat.testBit_and, Nat.testBit_xor, Nat.testBit_two_pow_sub_one,
        Nat.testBit_two_pow_of_ne (Ne.symm hne), decide_eq_true hi, Bool.xor_false,
        Bool.and_true]
  have hmlt : pinModePayload v g m < 256 := by
    cases m with
    | Output => exact @Nat.or_lt_two_pow v _ 8 hv (by cases g <;> decide)
    | Input => exact @Nat.and_lt_two_pow v _ 8 (by cases g <;> decide)
  have hslt : pinStatePayload v g ps < 256 := by
    cases ps with
    | High => exact @Nat.or_lt_two_pow v _ 8 hv (by cases g <;> decide)
    | Low => exact @Nat.and_lt_two_pow v _ 8 (by cases g <;> decide)
  refine ⟨?_, ?_, Nat.mod_eq_of_lt hmlt, Nat.mod_eq_of_lt hslt,
    fun i hi hne => ⟨hmode i hi hne, hstate i hi hne⟩⟩
  · have base :
        logOf (gpio_set_pin_mode (oracleBus fun _ => .ok v) g m (dev0 0x48)) =
          some [⟨true, 0x48, [subAddress 0x0A .A]⟩,
                ⟨false, 0x48, [subAddress 0x0A .A, pinModePayload (v % 256) g m % 256]⟩] := by
      cases g <;> cases m <;> rfl
    rw [hv'] at base
    exact base
  · have base :
        logOf (gpio_set_pin_state (oracleBus fun _ => .ok v) g ps (dev0 0x48)) =
          some [⟨true, 0x48, [subAddress 0x0B .A]⟩,
                ⟨false, 0x48, [subAddress 0x0B .A, pinStatePayload (v % 256) g ps % 256]⟩] := by
      cases g <;> cases ps <;> rfl
    rw [hv'] at base
    exact base

theorem C10_witness :
    (pinModePayload 170 .GPIO3 .Output).testBit 0 = (170 : Nat).testBit 0 ∧
    (pinStatePayload 170 .GPIO3 .High).testBit 0 = (170 : Nat).testBit 0 :=
  (C10_gpio_rmw_frame 170 (by decide) .GPIO3 .Output .High).2.2.2.2 0 (by decide) (by decide)

/-- C2, amended: a transport failure on a single register access is
propagated verbatim (`read_register` / `write_register` return exactly the
bus's error), and an error on the register access that `read` performs
before its loop also propagates verbatim; but transport errors raised by the
register accesses inside the `read` / `read_all` loops are discarded by
`if let Ok(Some(byte))`, and the operations return `Ok` with the bytes
collected so far instead. -/
theorem C2_transport_error (e : TErr) (ch : Channel) (reg q : Nat)
    (s : DeviceState OracleState) :
    read_register (oracleBus fun _ => .error e) ch reg s = .err e s ∧
    write_register (oracleBus fun _ => .error e) ch reg 0 s = .err e s ∧
    errOf (read (oracleBus fun _ => .error e) ch q s) = some e ∧
    valOf (read (oracleBus fun t => if t < 2 then .ok 5 else .error e) ch 10 (dev0 0x48)) =
      some [] ∧
    valOf (read_all (oracleBus fun t => if t < 1 then .ok 5 else .error e) ch (dev0 0x48)) =
      some [] :=
  ⟨rfl, rfl, rfl, by cases ch <;> rfl, by cases ch <;> rfl⟩

theorem lineControlByte_lt (v wl : Nat) (p : Parity) (stop : Nat) :
    lineControlByte v wl p stop < 256 := by
  have h1 : v &&& 0xC0 < 256 := @Nat.and_lt_two_pow v 0xC0 8 (by norm_num)
  have h2 : wordLengthBits wl < 256 := by
    unfold wordLengthBits
    repeat' split
    all_goals norm_num
  have h3 : parityBits p < 256 := by cases p <;> norm_num [parityBits]
  have h12 : (v &&& 0xC0) ||| wordLengthBits wl < 256 := @Nat.or_lt_two_pow _ _ 8 h1 h2
  unfold lineControlByte
  split
  · exact @Nat.or_lt_two_pow _ _ 8 (@Nat.or_lt_two_pow _ _ 8 h12 (by norm_num)) h3
  · exact @Nat.or_lt_two_pow _ _ 8 h12 h3

/-- C6: `set_line` writes back the byte formed from the two high bits of the
line-control value it read, OR-ed with the word-length code (5→0b00, 6→0b01,
7→0b10, 8 or any other value→0b11), bit 2 exactly when the stop length is 2,
and the parity pattern (NoParity 0, Odd 0b01000, Even 0b11000, ForcedParity1
0b101000, ForcedParity0 0b111000); the spec's two examples follow. -/
theorem C6_set_line_encoding (ch : Channel) (v wl stop : Nat) (p : Parity) (hv : v < 256) :
    logOf (set_line (oracleBus fun _ => .ok v) ch wl p stop (dev0 0x48)) =
      some [⟨true, 0x48, [subAddress 0x03 ch]⟩,
            ⟨false, 0x48, [subAddress 0x03 ch, lineControlByte v wl p stop % 256]⟩] ∧
    lineControlByte v wl p stop % 256 = lineControlByte v wl p stop ∧
    lineControlByte v wl p stop =
      (v &&& 0xC0) |||
        (wordLengthBits wl ||| ((if stop = 2 then 0x04 else 0x00) ||| parityBits p)) ∧
    (wordLengthBits 5 = 0b00 ∧ wordLengthBits 6 = 0b01 ∧ wordLengthBits 7 = 0b10 ∧
      wordLengthBits 8 = 0b11 ∧
      ∀ n : Nat, n ≠ 5 → n ≠ 6 → n ≠ 7 → wordLengthBits n = 0b11) ∧
    (parityBits .NoParity = 0 ∧ parityBits .Odd = 0b01000 ∧ parityBits .Even = 0b11000 ∧
      parityBits .ForcedParity1 = 0b101000 ∧ parityBits .ForcedParity0 = 0b111000) ∧
    (lineControlByte v 8 .NoParity 1 = (v &&& 0xC0) ||| 0b00000011 ∧
      lineControlByte v 7 .Even 2 = (v &&& 0xC0) ||| 0b00011110) := by
  have hv' : v % 256 = v := Nat.mod_eq_of_lt hv
  have hshape : ∀ (wl' stop' : Nat) (p' : Parity),
      lineControlByte v wl' p' stop' =
        (v &&& 0xC0) |||
          (wordLengthBits wl' ||| ((if stop' = 2 then 0x04 else 0x00) ||| parityBits p')) := by
    intro wl' stop' p'
    by_cases h : stop' = 2 <;> simp [lineControlByte, h, Nat.lor_assoc]
  refine ⟨?_, Nat.mod_eq_of_lt (lineControlByte_lt v wl p stop), hshape wl stop p,
    ⟨rfl, rfl, rfl, rfl, ?_⟩, ⟨rfl, rfl, rfl, rfl, rfl⟩, ?_, ?_⟩
  · have base :
        logOf (set_line (oracleBus fun _ => .ok v) ch wl p stop (dev0 0x48)) =
          some [⟨true, 0x48, [subAddress 0x03 ch]⟩,
                ⟨false, 0x48, [subAddress 0x03 ch, lineControlByte (v % 256) wl p stop % 256]⟩] := by
      cases ch <;> rfl
    rw [hv'] at base
    exact base
  · intro n h5 h6 h7
    simp [wordLengthBits, h5, h6, h7]
  · rw [hshape 8 1 .NoParity]
    norm_num [wordLengthBits, parityBits]
  · have h30 : (2 ||| (4 ||| 24) : Nat) = 30 := by decide
    rw [hshape 7 2 .Even]
    norm_num [wordLengthBits, parityBits, h30]

theorem C6_witness :
    lineControlByte 255 8 .NoParity 1 = (255 &&& 0xC0) ||| 0b00000011 ∧
    lineControlByte 255 7 .Even 2 = (255 &&& 0xC0) ||| 0b00011110 :=
  (C6_set_line_encoding .A 255 8 1 .NoParity (by decide)).2.2.2.2.2

/-- C9: `peek` buffers a byte only when the channel's peek flag was already
true before the call; when the flag is false `peek` changes nothing at all,
so starting from a freshly constructed device (all flags false, buffers
empty) no sequence of `peek` calls ever buffers a byte or raises a flag. -/
theorem C9_peek_requires_prior_flag (B : BusIface β) (b : β) (addr : Nat) :
    (∀ (s : DeviceState β) (ch : Channel),
      s.peekFlagAt ch = false → peek B ch s = .ok () s) ∧
    (∀ ch : Channel,
      (new addr b : DeviceState β).peekFlagAt ch = false ∧
      (new addr b : DeviceState β).peekBufAt ch = none) ∧
    (∀ chs : List Channel, peekRun B chs (new addr b) = .ok () (new addr b)) := by
  have h1 : ∀ (s : DeviceState β) (ch : Channel),
      s.peekFlagAt ch = false → peek B ch s = .ok () s := by
    intro s ch h
    simp [peek, h]
  have h2 : ∀ ch : Channel, (new addr b : DeviceState β).peekFlagAt ch = false := by
    intro ch; cases ch <;> rfl
  refine ⟨h1, fun ch => ⟨h2 ch, by cases ch <;> rfl⟩, ?_⟩
  intro chs
  induction chs with
  | nil => rfl
  | cons ch rest ih => simp [peekRun, h1 (new addr b) ch (h2 ch), ih]

theorem C9_witness :
    peek (oracleBus fun _ => .ok 0) .A (dev0 0x48) = .ok () (dev0 0x48) ∧
    peekRun (oracleBus fun _ => .ok 0) [.A, .B, .A] (dev0 0x48) = .ok () (dev0 0x48) :=
  ⟨(C9_peek_requires_prior_flag (oracleBus fun _ => .ok 0) ⟨0, []⟩ 0x48).1 (dev0 0x48) .A rfl,
   (C9_peek_requires_prior_flag (oracleBus fun _ => .ok 0) ⟨0, []⟩ 0x48).2.2 [.A, .B, .A]⟩

/-- C4, amended: for every prescaler byte and baud rate whose computed
divisor fits in a byte, `set_baudrate` reads the prescaler and line-control
registers, writes line-control with bit 7 set, writes the divisor's low byte
to offset 0x00 and its high byte to offset 0x01, then writes line-control
with bit 7 cleared; when the divisor exceeds 255 the `try_into().unwrap()`
panics instead (see the counterexample), so the claimed success does not
extend past divisor 255. -/
theorem C4_set_baudrate_writes (ch : Channel) (c baudrate : Nat) (hc : c < 256)
    (h0 : (baudrate * 16) % 2 ^ 32 ≠ 0)
    (hd : divisorOf c baudrate < 256) :
    logOf (set_baudrate (oracleBus fun _ => .ok c) ch baudrate (dev0 0x48)) =
      some [⟨true, 0x48, [subAddress 0x04 ch]⟩,
            ⟨true, 0x48, [subAddress 0x03 ch]⟩,
            ⟨false, 0x48, [subAddress 0x03 ch, (c ||| 0x80) % 256]⟩,
            ⟨false, 0x48, [subAddress 0x00 ch, divisorOf c baudrate % 256]⟩,
            ⟨false, 0x48, [subAddress 0x01 ch, (divisorOf c baudrate >>> 8) % 256]⟩,
            ⟨false, 0x48, [subAddress 0x03 ch, ((c ||| 0x80) &&& 0x7F) % 256]⟩] ∧
    divisorOf c baudrate % 256 = divisorOf c baudrate ∧
    divisorOf c baudrate >>> 8 = divisorOf c baudrate / 256 ∧
    divisorOf 0 9600 = 12 := by
  have hc' : c % 256 = c := Nat.mod_eq_of_lt hc
  have hd' : ¬ 256 ≤ divisorOf c baudrate := Nat.not_le.mpr hd
  have hz : divisorOf c baudrate >>> 8 = 0 := by
    rw [Nat.shiftRight_eq_div_pow]
    exact Nat.div_eq_of_lt (by exact hd)
  have hd3 : ¬ 256 ≤ divisorOf c baudrate >>> 8 := by rw [hz]; omega
  refine ⟨?_, Nat.mod_eq_of_lt hd,
    by rw [Nat.shiftRight_eq_div_pow], by decide⟩
  simp only [divisorOf] at hd' hd3
  simp only [set_baudrate, run_bind, read_register_const, write_register_const, run_pure,
    hc', divisorOf, if_neg h0, if_neg hd', if_neg hd3, logOf, stateOf, Option.map,
    List.nil_append, List.cons_append, List.append_nil, dev0, new]
  norm_num

theorem C4_witness :
    logOf (set_baudrate (oracleBus fun _ => .ok 0) .A 9600 (dev0 0x48)) =
      some [⟨true, 0x48, [subAddress 0x04 .A]⟩,
            ⟨true, 0x48, [subAddress 0x03 .A]⟩,
            ⟨false, 0x48, [subAddress 0x03 .A, (0 ||| 0x80) % 256]⟩,
            ⟨false, 0x48, [subAddress 0x00 .A, divisorOf 0 9600 % 256]⟩,
            ⟨false, 0x48, [subAddress 0x01 .A, (divisorOf 0 9600 >>> 8) % 256]⟩,
            ⟨false, 0x48, [subAddress 0x03 .A, ((0 ||| 0x80) &&& 0x7F) % 256]⟩] ∧
    divisorOf 0 9600 = 12 :=
  ⟨(C4_set_baudrate_writes .A 0 9600 (by decide) (by decide) (by decide)).1,
   (C4_set_baudrate_writes .A 0 9600 (by decide) (by decide) (by decide)).2.2.2⟩

theorem bus_setFifoAt (s : DeviceState β) (ch : Channel) (v : Nat) :
    (s.setFifoAt ch v).bus = s.bus := by cases ch <;> rfl

theorem queueAt_setQueueAt (f : FifoState) (ch : Channel) (q : List Nat) :
    (f.setQueueAt ch q).queueAt ch = q := by cases ch <;> rfl

theorem fifo_available_data_fifo (ch : Channel) (s : DeviceState FifoState) :
    fifo_available_data fifoBus ch s =
      .ok ((s.bus.queueAt ch).length % 256)
        (s.setFifoAt ch ((s.bus.queueAt ch).length % 256)) := by
  obtain ⟨a, bus, fA, fB, pA, pB, bA, bB⟩ := s
  obtain ⟨qa, qb⟩ := bus
  cases ch <;> rfl

theorem read_byte_fifo_nil (ch : Channel) (s : DeviceState FifoState)
    (h : s.bus.queueAt ch = []) :
    read_byte fifoBus ch s = .ok none (s.setFifoAt ch 0) := by
  obtain ⟨a, bus, fA, fB, pA, pB, bA, bB⟩ := s
  obtain ⟨qa, qb⟩ := bus
  cases ch <;> (simp only [FifoState.queueAt] at h; subst h; rfl)

theorem read_byte_fifo_cons (ch : Channel) (s : DeviceState FifoState) (b : Nat)
    (rest : List Nat) (h : s.bus.queueAt ch = b :: rest) (hlen : rest.length + 1 < 256) :
    read_byte fifoBus ch s =
      .ok (some (b % 256))
        { s.setFifoAt ch (rest.length + 1) with bus := s.bus.setQueueAt ch rest } := by
  obtain ⟨a, bus, fA, fB, pA, pB, bA, bB⟩ := s
  obtain ⟨qa, qb⟩ := bus
  cases ch with
  | A =>
    simp only [FifoState.queueAt] at h
    subst h
    have hfad := fifo_available_data_fifo Channel.A
      ⟨a, ⟨b :: rest, qb⟩, fA, fB, pA, pB, bA, bB⟩
    simp only [FifoState.queueAt, List.length_cons, Nat.mod_eq_of_lt hlen] at hfad
    unfold read_byte
    rw [run_bind, hfad]
    rfl
  | B =>
    simp only [FifoState.queueAt] at h
    subst h
    have hfad := fifo_available_data_fifo Channel.B
      ⟨a, ⟨qa, b :: rest⟩, fA, fB, pA, pB, bA, bB⟩
    simp only [FifoState.queueAt, List.length_cons, Nat.mod_eq_of_lt hlen] at hfad
    unfold read_byte
    rw [run_bind, hfad]
    rfl

theorem readIter_fifo (ch : Channel) :
    ∀ (k : Nat) (buf : List Nat) (s : DeviceState FifoState),
      (s.bus.queueAt ch).length < 256 →
      (∀ x ∈ s.bus.queueAt ch, x < 256) →
      ∃ s' : DeviceState FifoState,
        readIter fifoBus ch k buf s = .ok (buf ++ (s.bus.queueAt ch).take k) s' ∧
        s'.bus.queueAt ch = (s.bus.queueAt ch).drop k := by
  intro k
  induction k with
  | zero =>
    intro buf s _ _
    exact ⟨s, by simp [readIter, run_pure], by simp⟩
  | succ k ih =>
    intro buf s hlen hbytes
    rcases hq : s.bus.queueAt ch with _ | ⟨b, rest⟩
    · have hq0 : (s.setFifoAt ch 0).bus.queueAt ch = [] := by rw [bus_setFifoAt, hq]
      obtain ⟨s', h1, h2⟩ := ih buf (s.setFifoAt ch 0)
        (by rw [hq0]; simp) (by rw [hq0]; simp)
      rw [hq0] at h1 h2
      refine ⟨s', ?_, ?_⟩
      · simp only [readIter, read_byte_fifo_nil ch s hq]
        simpa using h1
      · simpa using h2
    · have hlen' : rest.length + 1 < 256 := by rw [hq] at hlen; simpa using hlen
      have hb : b < 256 := hbytes b (by rw [hq]; exact List.mem_cons_self b rest)
      have hb' : b % 256 = b := Nat.mod_eq_of_lt hb
      have hrb := read_byte_fifo_cons ch s b rest hq hlen'
      have hq1 : ({ s.setFifoAt ch (rest.length + 1) with
          bus := s.bus.setQueueAt ch rest } : DeviceState FifoState).bus.queueAt ch = rest :=
        queueAt_setQueueAt s.bus ch rest
      obtain ⟨s', h1, h2⟩ := ih (buf ++ [b])
        { s.setFifoAt ch (rest.length + 1) with bus := s.bus.setQueueAt ch rest }
        (by rw [hq1]; omega)
        (by rw [hq1]; exact fun x hx => hbytes x (by rw [hq]; exact List.mem_cons_of_mem b hx))
      rw [hq1] at h1 h2
      refine ⟨s', ?_, ?_⟩
      · simp only [readIter, hrb, hb']
        rw [h1]
        simp [List.take_succ_cons, List.append_assoc, List.singleton_append]
      · rw [h2]
        simp [List.drop_succ_cons]

/-- C1, amended: over the FIFO hardware model, `read(ch, quantity)` never
returns more bytes than are available and never blocks; when `quantity`
exceeds the available count it returns exactly the available bytes, but when
`quantity` is at most the available count it returns only `min 1 available`
bytes (the loop bound stays 0 and the inclusive loop runs once), not
`quantity` bytes, and with `quantity = 0` it can return one byte more than
requested (see the counterexample). -/
theorem C1_read_bounded (ch : Channel) (q : Nat) (s : DeviceState FifoState)
    (hlen : (s.bus.queueAt ch).length < 256)
    (hbytes : ∀ x ∈ s.bus.queueAt ch, x < 256) :
    valOf (read fifoBus ch q s) =
      some (if (s.bus.queueAt ch).length < q then s.bus.queueAt ch
            else (s.bus.queueAt ch).take 1) ∧
    ∀ l, valOf (read fifoBus ch q s) = some l →
      l.length ≤ (s.bus.queueAt ch).length := by
  have key : ∀ s₂ : DeviceState FifoState, s₂.bus.queueAt ch = s.bus.queueAt ch → ∀ n,
      ∃ s', readIter fifoBus ch n [] s₂ = .ok ((s.bus.queueAt ch).take n) s' := by
    intro s₂ h₂ n
    obtain ⟨s', h1, _⟩ := readIter_fifo ch n [] s₂ (by rw [h₂]; exact hlen)
      (by rw [h₂]; exact hbytes)
    rw [h₂] at h1
    exact ⟨s', by simpa using h1⟩
  have hq2 : (s.setFifoAt ch ((s.bus.queueAt ch).length)).bus.queueAt ch =
      s.bus.queueAt ch := by rw [bus_setFifoAt]
  have main : valOf (read fifoBus ch q s) =
      some (if (s.bus.queueAt ch).length < q then s.bus.queueAt ch
            else (s.bus.queueAt ch).take 1) := by
    by_cases hcmp : (s.bus.queueAt ch).length < q
    · obtain ⟨s', h1⟩ := key
        ((s.setFifoAt ch ((s.bus.queueAt ch).length)).setFifoAt ch
          ((s.bus.queueAt ch).length))
        (by rw [bus_setFifoAt, bus_setFifoAt]) ((s.bus.queueAt ch).length + 1)
      simp only [read, run_bind, fifo_available_data_fifo, Nat.mod_eq_of_lt hlen,
        if_pos hcmp, hq2, run_pure, h1, valOf]
      rw [List.take_of_length_le (by omega)]
    · obtain ⟨s', h1⟩ := key (s.setFifoAt ch ((s.bus.queueAt ch).length))
        (by rw [bus_setFifoAt]) 1
      simp only [read, run_bind, fifo_available_data_fifo, Nat.mod_eq_of_lt hlen,
        if_neg hcmp, hq2, run_pure, h1, valOf]
  refine ⟨main, ?_⟩
  intro l hl
  rw [main] at hl
  obtain rfl : (if (s.bus.queueAt ch).length < q then s.bus.queueAt ch
      else (s.bus.queueAt ch).take 1) = l := by
    exact Option.some_injective _ hl
  by_cases hcmp : (s.bus.queueAt ch).length < q
  · rw [if_pos hcmp]
  · rw [if_neg hcmp]
    simp only [List.length_take]
    omega

theorem C1_witness :
    valOf (read fifoBus .A 10 (fdev [1, 2, 3, 4, 5] [])) = some [1, 2, 3, 4, 5] ∧
    ∀ l, valOf (read fifoBus .A 10 (fdev [1, 2, 3, 4, 5] [])) = some l → l.length ≤ 5 :=
  ⟨(C1_read_bounded .A 10 (fdev [1, 2, 3, 4, 5] []) (by decide) (by decide)).1,
   (C1_read_bounded .A 10 (fdev [1, 2, 3, 4, 5] []) (by decide) (by decide)).2⟩

end SC16IS752
